import Mathlib

/-!
Verification of the dev-analyzer log-to-metrics pipeline.

This file shallowly embeds the core of the repository:
  * `src/logTransformer/parsers/next.ts` (the Next.js log parser), and
  * `src/logTransformer/index.ts` together with the evaluator's
    `evaluate` / `deriveLevel` / `buildRecommendations` functions,
and proves, or refutes, the frozen specification claims about them.

Modelling conventions:
  * JS strings are `List Char`; JS string methods (`trim`, `startsWith`,
    `includes`, `slice`) are embedded char-exactly for ASCII input.
    `toLowerCase` and the case-insensitive regex flags are modelled by
    ASCII lowercasing (`Char.toLower`), and `\s` by ASCII whitespace;
    the Unicode extensions of those classes are outside the inputs the
    claims mention.
  * JS numbers are `JsNum` = NaN or an exact rational.  The code never
    produces infinities on the embedded paths (no division, and exact
    rationals do not overflow), so `JsNum` has no infinity constructor.
  * The specific regexes of the source (`([\d.]+)\s*s`, `([\d.]+)\s*ms`,
    `(\d+)\s*modules`, `compiling\s+(.+)`, `compiled\s+(.*)\s+successfully`,
    `\(.*\)`, `\.\.\.$`, `client and server`) are embedded as
    leftmost-match searches with the greedy/backtracking behaviour of the
    JS engine specialised to each pattern.
-/

/-- ASCII whitespace, the fragment of JS `\s` relevant to the log lines. -/
def isWsJs (c : Char) : Bool :=
  c = ' ' ∨ c = '\t' ∨ c = '\n' ∨ c = '\r' ∨ c = '\x0b' ∨ c = '\x0c'

/-- JS `String.prototype.trim` (ASCII fragment): strip leading and trailing whitespace. -/
def jsTrim (s : List Char) : List Char :=
  ((s.dropWhile isWsJs).reverse.dropWhile isWsJs).reverse

/-- JS `String.prototype.toLowerCase` (ASCII fragment). -/
def lc (s : List Char) : List Char := s.map Char.toLower

/-- JS `String.prototype.includes`: does `pat` occur contiguously in `s`? -/
def isSubstr (pat : List Char) : List Char → Bool
  | [] => pat.isEmpty
  | c :: rest => pat.isPrefixOf (c :: rest) || isSubstr pat rest

/-- A JS `number` as produced by this code: NaN or an exact rational. -/
inductive JsNum where
  | nan : JsNum
  | val : ℚ → JsNum
deriving DecidableEq, Repr

/-- Decimal digits to a natural number (`Number` on a digit string). -/
def digitsToNat (s : List Char) : ℕ :=
  s.foldl (fun acc c => 10 * acc + (c.toNat - '0'.toNat)) 0

/-- The digit-and-scale decomposition of JS `parseFloat` on a `[\d.]+` match:
the longest prefix of the form `digits`, `digits.digits`, `digits.` or
`.digits` is parsed; the value is `mantissa / 10 ^ fracLen`.  A string with
no digit in that prefix (for example `"."`) has no decomposition (NaN). -/
def parseFloatParts (s : List Char) : Option (ℕ × ℕ) :=
  let d1 := s.takeWhile Char.isDigit
  let rest := s.drop d1.length
  let d2 := if rest.head? = some '.' then (rest.drop 1).takeWhile Char.isDigit else []
  if d1.isEmpty ∧ d2.isEmpty then none
  else some (digitsToNat (d1 ++ d2), d2.length)

/-- JS `parseFloat` restricted to the strings the code feeds it, which are
matches of `[\d.]+` (digits and dots only).  `digits1.digits2` denotes
`digits1 + digits2 / 10 ^ |digits2|`, i.e. `mantissa / 10 ^ fracLen`. -/
def parseFloatDD (s : List Char) : JsNum :=
  match parseFloatParts s with
  | none => JsNum.nan
  | some (m, k) => JsNum.val ((m : ℚ) / (10 : ℚ) ^ k)

/-- Multiplication of a JS number by a constant (NaN absorbs). -/
def JsNum.mulNat (x : JsNum) (n : ℕ) : JsNum :=
  match x with
  | .nan => .nan
  | .val q => .val (q * n)

/-- Try the pattern `(<cls>+)\s*<unit>` at the current position: the greedy
character-class run, optional whitespace, then the literal unit.  For the
three unit patterns of the source the backtracking search degenerates to
exactly this test (the unit's first letter is neither in the class nor
whitespace), so the capture is always the maximal class run. -/
def numUnitAt (cls : Char → Bool) (unit : List Char) (s : List Char) : Option (List Char) :=
  let run := s.takeWhile cls
  if run.isEmpty then none
  else
    let rest := (s.drop run.length).dropWhile isWsJs
    if unit.isPrefixOf rest then some run else none

/-- Leftmost-match search: try a positional matcher at every suffix, left to
right, as the JS regex engine does. -/
def searchSuffixes (f : List Char → Option α) : List Char → Option α
  | [] => f []
  | c :: rest =>
    match f (c :: rest) with
    | some r => some r
    | none => searchSuffixes f rest

/-- First (leftmost) capture of `(<cls>+)\s*<unit>` in the string. -/
def firstNumUnit (cls : Char → Bool) (unit : List Char) (s : List Char) : Option (List Char) :=
  searchSuffixes (numUnitAt cls unit) s

/-- Character class `[\d.]`. -/
def isDigitDot (c : Char) : Bool := c.isDigit || c = '.'

/-- Embeds `parseDuration` from `next.ts`, with the seconds regex
checked before the milliseconds regex. -/
def parseDuration (line : List Char) : Option JsNum :=
  match firstNumUnit isDigitDot ['s'] line with
  | some g => some ((parseFloatDD g).mulNat 1000)
  | none =>
    match firstNumUnit isDigitDot ['m', 's'] line with
    | some g => some (parseFloatDD g)
    | none => none

/-- Embeds `parseModules` from `next.ts` (the modules regex).
`Number` on a pure digit string is exact (IEEE rounding of astronomically
long digit strings is idealised away; no claim touches it). -/
def parseModules (line : List Char) : Option ℕ :=
  match firstNumUnit Char.isDigit "modules".toList line with
  | some g => some (digitsToNat g)
  | none => none

/-- Embeds `isWaitLine` from `next.ts` (the wait marker test). -/
def isWaitLine (line : List Char) : Bool := "- wait".toList.isPrefixOf line

/-- Embeds the ellipsis removal: the end-anchored regex matches exactly the
final three characters when they are all dots. -/
def stripTrailingEllipsis (s : List Char) : List Char :=
  if ['.', '.', '.'].isSuffixOf s then s.take (s.length - 3) else s

/-- Try `/compiling\s+(.+)/i` at the current position and return the capture.
After the literal, the greedy `\s+` takes the whole whitespace run; `(.+)`
then captures the rest.  When nothing is left for `.+`, the engine backtracks
one whitespace character into the capture (possible only when the run has
length at least two). -/
def compilingAt (s : List Char) : Option (List Char) :=
  if lc (s.take 9) = "compiling".toList then
    let rest := s.drop 9
    let w := rest.takeWhile isWsJs
    if w.isEmpty then none
    else
      let after := rest.drop w.length
      if ¬ after.isEmpty then some after
      else if 2 ≤ w.length then some (rest.drop (w.length - 1))
      else none
  else none

/-- Leftmost match of `/compiling\s+(.+)/i`, returning the capture group. -/
def findCompiling (s : List Char) : Option (List Char) := searchSuffixes compilingAt s

/-- Index of the last occurrence of a character. -/
def lastIdxOf (c : Char) (s : List Char) : Option ℕ :=
  match s.reverse.findIdx? (· = c) with
  | some k => some (s.length - 1 - k)
  | none => none

/-- Embeds the parenthesized-suffix removal: with the greedy dot-star, the match runs from the
first opening parenthesis to the last closing parenthesis after it;
without such a pair the string is
unchanged. -/
def replaceParen (s : List Char) : List Char :=
  match s.findIdx? (· = '('), lastIdxOf ')' s with
  | some i, some j => if i < j then s.take i ++ s.drop (j + 1) else s
  | _, _ => s

/-- Embeds `normalizeWaitTarget` from `next.ts`. -/
def normalizeWaitTarget (line : List Char) : List Char :=
  let withoutPrefix := jsTrim (line.drop 6)
  let withoutEllipsis := jsTrim (stripTrailingEllipsis withoutPrefix)
  match findCompiling withoutEllipsis with
  | some cap =>
    let t := jsTrim (replaceParen cap)
    if t.isEmpty then "build".toList else t
  | none => if withoutEllipsis.isEmpty then "build".toList else withoutEllipsis

/-- Embeds `isEventCompiledLine` from `next.ts` (the compiled-event marker). -/
def isEventCompiledLine (line : List Char) : Bool :=
  "- event compiled".toList.isPrefixOf line

/-- Does `successfully` match case-insensitively at position `u`? -/
def succAt (s : List Char) (u : ℕ) : Bool :=
  "successfully".toList.isPrefixOf (lc (s.drop u))

/-- Does `\s+successfully` match at position `t` (the inner greedy `\s+`
backtracks, so any positive number of whitespace characters may precede the
literal)? -/
def wsSuccAt (s : List Char) (t : ℕ) : Bool :=
  let run := (s.drop t).takeWhile isWsJs
  decide (1 ≤ run.length) && (List.range run.length).any fun i => succAt s (t + 1 + i)

/-- Descending list `[n, n-1, ..., m]` (empty when `n < m`). -/
def descRange (n m : ℕ) : List ℕ := (List.range (n + 1 - m)).map (fun i => n - i)

/-- The capture of `compiled\s+(.*)\s+successfully` once the literal
`compiled` has matched just before position `q`: the greedy outer `\s+`
takes `k` characters (longest first) and the greedy `(.*)` backtracks from
the end of the string to the latest split `t` where `\s+successfully`
matches; the capture is the text between. -/
def compiledCaptureFrom (s : List Char) (q : ℕ) : Option (List Char) :=
  let kmax := ((s.drop q).takeWhile isWsJs).length
  (descRange kmax 1).findSome? fun k =>
    (descRange s.length (q + k)).findSome? fun t =>
      if wsSuccAt s t then some ((s.drop (q + k)).take (t - (q + k))) else none

/-- Leftmost match of `/compiled\s+(.*)\s+successfully/i`, returning the
capture group. -/
def matchCompiled (s : List Char) : Option (List Char) :=
  (List.range (s.length + 1)).findSome? fun p =>
    if "compiled".toList.isPrefixOf (lc (s.drop p)) then compiledCaptureFrom s (p + 8)
    else none

/-- Embeds a replace call with a case-insensitive literal pattern:
remove the leftmost occurrence (`/client and server/i`). -/
def replaceFirstCI (pat : List Char) (s : List Char) : List Char :=
  match (List.range (s.length + 1)).find? (fun i => pat.isPrefixOf (lc (s.drop i))) with
  | some i => s.take i ++ s.drop (i + pat.length)
  | none => s

/-- Embeds `inferTarget` from `next.ts`. -/
def inferTarget (line : List Char) : List Char :=
  match matchCompiled line with
  | some cap =>
    let t := jsTrim (replaceFirstCI "client and server".toList cap)
    if t.isEmpty then "build".toList else t
  | none => "build".toList

inductive BuildEventType where
  | initial : BuildEventType
  | incremental : BuildEventType
deriving DecidableEq, Repr

/-- JS truthiness of a nullable string (`null` and `""` are falsy). -/
def truthyStr : Option (List Char) → Bool
  | none => false
  | some s => ¬ s.isEmpty

/-- Embeds `inferBuildType` from `next.ts`; the context test is JS
truthiness.  The includes test for the client-and-server phrase is
case-sensitive. -/
def inferBuildType (line : List Char) (context : Option (List Char)) : BuildEventType :=
  if truthyStr context then .incremental
  else if isSubstr "client and server".toList line then .initial
  else .incremental

structure BuildEvent where
  target : List Char
  durationMs : Option JsNum
  modules : Option ℕ
  type : BuildEventType
deriving DecidableEq, Repr

/-- Embeds `parseBuildEvent` from `next.ts`.  The target fallback is
nullish coalescing: any non-null string, even the empty one, is kept. -/
def parseBuildEvent (line : List Char) (context : Option (List Char)) : BuildEvent :=
  { target := match context with
      | some t => t
      | none => inferTarget line
    durationMs := parseDuration line
    modules := parseModules line
    type := inferBuildType line context }

inductive DiagnosticLevel where
  | info : DiagnosticLevel
  | warning : DiagnosticLevel
  | error : DiagnosticLevel
  | critical : DiagnosticLevel
deriving DecidableEq, Repr

/-- A value inside an issue's `details` record (the shapes this code
actually stores there). -/
inductive DetailVal where
  | str : List Char → DetailVal
  | strList : List (List Char) → DetailVal
  | num : JsNum → DetailVal
deriving DecidableEq, Repr

/-- Embeds the issue record of the transformer; `details` is an optional record,
modelled as an association list. -/
structure Issue where
  level : DiagnosticLevel
  message : List Char
  details : Option (List (List Char × DetailVal))
deriving DecidableEq, Repr

inductive LogSource where
  | stdout : LogSource
  | stderr : LogSource
deriving DecidableEq, Repr

/-- Embeds the log entry of the collector.  Only `message` is ever read by
the transformer; the numeric `timestamp` is idealised to a tick count. -/
structure LogEntry where
  entryType : LogSource
  message : List Char
  timestamp : ℕ
deriving DecidableEq, Repr

structure Summary where
  eventCount : ℕ
  longestBuildMs : Option JsNum
  longestTarget : List Char
deriving DecidableEq, Repr

/-- Embeds the metrics record; `summary = none` models the empty record (for the
evaluator, a wholly absent `summary` behaves identically through `?.`). -/
structure Metrics where
  buildEvents : List BuildEvent
  warnings : List Issue
  errors : List Issue
  notes : List Issue
  summary : Option Summary
deriving DecidableEq, Repr

structure TransformResult where
  framework : List Char
  metrics : Metrics
  rawLogs : List LogEntry
deriving DecidableEq, Repr

/-- JS truthiness of `durationMs`: `null`, `0` and `NaN` are all falsy. -/
def truthyNum : Option JsNum → Bool
  | none => false
  | some .nan => false
  | some (.val q) => decide (q ≠ 0)

/-- Embeds the duration comparison evaluated inside `summarize`.  Both
operands are truthy (finite nonzero) numbers whenever the comparison is
reached, so only the value case matters; NaN comparisons are false in JS. -/
def durGt : Option JsNum → Option JsNum → Bool
  | some (.val a), some (.val b) => decide (b < a)
  | _, _ => false

/-- One step of the `reduce` inside `summarize`. -/
def longestStep (acc cur : BuildEvent) : BuildEvent :=
  if ¬ truthyNum acc.durationMs then cur
  else if ¬ truthyNum cur.durationMs then acc
  else if durGt cur.durationMs acc.durationMs then cur else acc

/-- Embeds `summarize` from `next.ts`; `none` is the empty record.  JS folding
without an initial value takes the first element as the starting
accumulator.  `longest.durationMs ?? null` and `longest.target ?? null` are
identities on the respective (already nullable / non-nullable) fields. -/
def summarize : List BuildEvent → Option Summary
  | [] => none
  | e :: rest =>
    let longest := rest.foldl longestStep e
    some { eventCount := (e :: rest).length
           longestBuildMs := longest.durationMs
           longestTarget := longest.target }

structure ParseAcc where
  warnings : List Issue
  errors : List Issue
  notes : List Issue
  buildEvents : List BuildEvent
  lastWaitContext : Option (List Char)
deriving DecidableEq, Repr

def initAcc : ParseAcc := ⟨[], [], [], [], none⟩

/-- The 8-space indentation prefix tested by `collectIndentedBlock`. -/
def eightSpaces : List Char := "        ".toList

/-- The scan of `collectIndentedBlock`: walk all entries from the start,
begin recording after the entry at `startIdx` (the source compares object
identity, `entry === startEntry`; entries of one capture are distinct
objects, so the loop index identifies the entry), stop at the first
non-indented raw message, collecting trimmed messages. -/
def collectScan : List LogEntry → ℕ → ℕ → Bool → List (List Char)
  | [], _, _, _ => []
  | e :: rest, idx, startIdx, recording =>
    if idx = startIdx then collectScan rest (idx + 1) startIdx true
    else if ¬ recording then collectScan rest (idx + 1) startIdx recording
    else if ¬ eightSpaces.isPrefixOf e.message then []
    else jsTrim e.message :: collectScan rest (idx + 1) startIdx true

/-- Embeds `collectIndentedBlock` from `next.ts`. -/
def collectIndentedBlock (logs : List LogEntry) (startIdx : ℕ) : List (List Char) :=
  collectScan logs 0 startIdx false

/-- The body of the `for` loop of `parse` with the `const line` binding as a
parameter; the rules appear in the source's order and each ends with
`continue`. -/
def classifyLine (logs : List LogEntry) (i : ℕ) (line : List Char) (acc : ParseAcc) : ParseAcc :=
  if line.isEmpty then acc
  else if isWaitLine line then { acc with lastWaitContext := some (normalizeWaitTarget line) }
  else if isEventCompiledLine line then
    { acc with buildEvents := acc.buildEvents ++ [parseBuildEvent line acc.lastWaitContext]
               lastWaitContext := none }
  else if "Duplicate page detected".toList.isPrefixOf line then
    { acc with errors := acc.errors ++ [{ level := .error, message := line, details := none }] }
  else if "The page component is named \"layout\"".toList.isPrefixOf line then
    { acc with errors := acc.errors ++
        [{ level := .error, message := line
           details := some [("routes".toList, .strList (collectIndentedBlock logs i))] }] }
  else if isSubstr "was successfully patched".toList line then
    { acc with notes := acc.notes ++ [{ level := .info, message := line, details := none }] }
  else if ("- warn".toList.isPrefixOf line || "warn -".toList.isPrefixOf line) then
    { acc with warnings := acc.warnings ++ [{ level := .warning, message := line, details := none }] }
  else if isSubstr "DeprecationWarning".toList line then
    { acc with warnings := acc.warnings ++ [{ level := .warning, message := line, details := none }] }
  else acc

/-- One loop iteration of `parse`: trim the entry's message and classify. -/
def processEntry (logs : List LogEntry) (i : ℕ) (acc : ParseAcc) : ParseAcc :=
  classifyLine logs i (jsTrim ((logs.getD i ⟨.stdout, [], 0⟩).message)) acc

/-- The `parse` method of `nextLogParser`. -/
def nextParse (framework : List Char) (logs : List LogEntry) : TransformResult :=
  let acc := (List.range logs.length).foldl (fun a i => processEntry logs i a) initAcc
  { framework := framework
    metrics := { buildEvents := acc.buildEvents
                 warnings := acc.warnings
                 errors := acc.errors
                 notes := acc.notes
                 summary := summarize acc.buildEvents }
    rawLogs := logs }

/-- Embeds the framework predicate of the parser: case-insensitive substring test. -/
def canHandle (framework : List Char) : Bool := isSubstr "next".toList (lc framework)

def emptyMetrics : Metrics := ⟨[], [], [], [], none⟩

/-- Embeds `transformLogs` from the transformer index: the parser registry
holds only the Next parser, so `PARSERS.find` selects it exactly when
`canHandle` holds; otherwise `defaultTransform` returns empty metrics and
the untouched logs. -/
def transformLogs (framework : List Char) (logs : List LogEntry) : TransformResult :=
  if canHandle framework then nextParse framework logs
  else { framework := framework, metrics := emptyMetrics, rawLogs := logs }

/-- Embeds the optional-chain read of the summary's longest duration:
an absent summary (`{}`) and a `null` field both collapse to `none`, exactly
as the `?? 0` in the evaluator treats them. -/
def getLongest (m : Metrics) : Option JsNum :=
  match m.summary with
  | none => none
  | some s => s.longestBuildMs

/-- Embeds the numeric coercion of the longest duration inside `evaluate`
(`Number` is the identity on a number). -/
def longestOf (m : Metrics) : JsNum :=
  match getLongest m with
  | none => .val 0
  | some x => x

/-- Embeds the thresholds record of the evaluator. -/
structure Thresholds where
  warningPenalty : ℚ
  errorPenalty : ℚ
  slowBuildMs : ℚ
deriving DecidableEq, Repr

/-- The defaults merged into `evaluate`'s thresholds. -/
def defaultThresholds : Thresholds := ⟨5, 20, 30000⟩

/-- The score of `evaluate` before the slow-build deduction:
`100 - errors.length * errorPenalty - warnings.length * warningPenalty`. -/
def baseScore (m : Metrics) (t : Thresholds) : ℚ :=
  100 - m.errors.length * t.errorPenalty - m.warnings.length * t.warningPenalty

/-- The guarded slow-build deduction of `evaluate`:
`if (longestBuild && longestBuild > thresholds.slowBuildMs)` subtract
`Math.min(30, Math.ceil((longestBuild - slowBuildMs) / 10000) * 5)`.
`longestBuild` truthy means finite and nonzero; a `NaN` comparison is false
either way. -/
def slowBuildPenalty (m : Metrics) (t : Thresholds) : ℚ :=
  match longestOf m with
  | .nan => 0
  | .val q =>
    if q ≠ 0 ∧ q > t.slowBuildMs then min 30 ((⌈(q - t.slowBuildMs) / 10000⌉ : ℚ) * 5)
    else 0

/-- The score computation of `evaluate` from `evaluator/index.ts`: start at
100, subtract the issue penalties, subtract the guarded slow-build
deduction, then clamp to `[0, 100]` (the sequential `score -= ...`
statements of the source are rendered as one subtraction chain). -/
def evaluateScore (m : Metrics) (t : Thresholds) : ℚ :=
  max 0 (min 100 (baseScore m t - slowBuildPenalty m t))

inductive Level where
  | Excellent : Level
  | Good : Level
  | Average : Level
  | Poor : Level
deriving DecidableEq, Repr

/-- Embeds `deriveLevel` from the evaluator. -/
def deriveLevel (score : ℚ) : Level :=
  if score ≥ 85 then .Excellent
  else if score ≥ 70 then .Good
  else if score ≥ 50 then .Average
  else .Poor

/-- The slice of `ProjectFileSnapshot` the recommendation builder reads
(`path` and the `exists` flag, here `present`). -/
structure ConfigFile where
  path : List Char
  present : Bool
deriving DecidableEq, Repr

/-- JS `Array.prototype.join` with a separator. -/
def joinSep (sep : List Char) : List (List Char) → List Char
  | [] => []
  | [p] => p
  | p :: rest => p ++ sep ++ joinSep sep rest

/-- The slow-build recommendation message (template literal interpolating
the duration and the threshold; integer values print as decimal numerals,
which is all the pipeline produces where this message is compared). -/
def slowBuildMsg (longest : ℚ) (slow : ℚ) : List Char :=
  "Build step耗时 ".toList ++ (toString longest).toList
    ++ " ms，超过阈值 ".toList ++ (toString slow).toList
    ++ " ms，建议检查懒加载、缓存或代码拆分。".toList

/-- The missing-configuration message (paths joined by comma-space). -/
def missingConfigMsg (paths : List (List Char)) : List Char :=
  "未找到部分配置文件：".toList ++ joinSep ", ".toList paths

/-- Embeds `buildRecommendations` from the evaluator, applied to the slice
of the context it reads (metrics and configuration-file snapshots):
criticals for errors, warnings for warnings, the guarded slow-build warning
(same truthy-and-greater test as in `evaluate`), then the single
missing-configuration info line. -/
def buildRecommendations (m : Metrics) (configFiles : List ConfigFile)
    (t : Thresholds) : List Issue :=
  let recs :=
    m.errors.map (fun e => { level := .critical, message := e.message, details := e.details })
      ++ m.warnings.map (fun w => { level := .warning, message := w.message, details := w.details })
  let recs := recs ++
    (match longestOf m with
     | .nan => []
     | .val q =>
       if q ≠ 0 ∧ q > t.slowBuildMs then
         [{ level := .warning, message := slowBuildMsg q t.slowBuildMs
            details := some [("longestBuildMs".toList, DetailVal.num (.val q))] }]
       else [])
  let missing := configFiles.filter (fun f => ¬ f.present)
  recs ++ (if missing.isEmpty then []
           else [{ level := .info, message := missingConfigMsg (missing.map (·.path))
                   details := none }])

/-- Modelled from the spec (§4.2, claim C3): the deduction applies *exactly
when* `summary.longestBuildMs > slowBuildMs` (no truthiness guard). -/
def specSlowBuildPenalty (m : Metrics) (t : Thresholds) : ℚ :=
  match getLongest m with
  | some (.val q) =>
    if q > t.slowBuildMs then min 30 ((⌈(q - t.slowBuildMs) / 10000⌉ : ℚ) * 5)
    else 0
  | _ => 0

/-- Modelled from the spec (§4.2, claim C3): the clamp to `[0,100]` of
`100 - errors*errorPenalty - warnings*warningPenalty`, minus
`min(30, ceil((longest - slowBuildMs)/10000)*5)` exactly when
`summary.longestBuildMs > slowBuildMs`.  Stated from the claim's wording for
comparison with the source-embedded `evaluateScore`. -/
def specScore (m : Metrics) (t : Thresholds) : ℚ :=
  max 0 (min 100 (baseScore m t - specSlowBuildPenalty m t))

/-- Modelled from the spec (§4.3, claim C6): one critical per error, one
warning per warning (messages and details passed through), the slow-build
warning exactly when the longest build exceeds `slowBuildMs`, and the
missing-configuration info exactly when some expected file is absent —
in this fixed order.  Stated from the claim's wording for comparison with
the source-embedded `buildRecommendations`. -/
def specRecommendations (m : Metrics) (configFiles : List ConfigFile)
    (t : Thresholds) : List Issue :=
  m.errors.map (fun e => { level := .critical, message := e.message, details := e.details })
    ++ m.warnings.map (fun w => { level := .warning, message := w.message, details := w.details })
    ++ (match getLongest m with
        | some (.val q) =>
          if q > t.slowBuildMs then
            [{ level := .warning, message := slowBuildMsg q t.slowBuildMs
               details := some [("longestBuildMs".toList, DetailVal.num (.val q))] }]
          else []
        | _ => [])
    ++ (if (configFiles.filter (fun f => ¬ f.present)).isEmpty then []
        else [{ level := .info
                message := missingConfigMsg ((configFiles.filter (fun f => ¬ f.present)).map (·.path))
                details := none }])

/-- The durations that JS truthiness lets win the `summarize` fold: finite
and nonzero.  Used to state what `longestBuildMs` actually is. -/
def truthyVals : List BuildEvent → List ℚ
  | [] => []
  | e :: rest =>
    match e.durationMs with
    | some (.val q) => if q ≠ 0 then q :: truthyVals rest else truthyVals rest
    | _ => truthyVals rest
/-- The concrete metrics of claim C3's scenario D: one build event summary
with `longestBuildMs = 45000`, no errors, no warnings. -/
def metrics45k : Metrics :=
  ⟨[], [], [], [], some ⟨1, some (JsNum.val 45000), "build".toList⟩⟩
/-- The extra-error metrics used to witness C4's monotonicity. -/
def oneErrMetrics : Metrics :=
  ⟨[], [], [⟨.error, "e".toList, none⟩], [], none⟩
/-- A metrics value scoring-equivalent to `metrics45k` but with different
build events, notes and summary target. -/
def metrics45kAlt : Metrics :=
  ⟨[⟨"page".toList, some (JsNum.val 45000), some 10, .incremental⟩], [], [],
   [⟨.info, "n".toList, none⟩], some ⟨1, some (JsNum.val 45000), "page".toList⟩⟩
/-- The two log lines of scenario A (claim C7). -/
def scenarioALogs : List LogEntry :=
  [⟨.stdout, "- wait compiling /home...".toList, 0⟩,
   ⟨.stdout, "- event compiled client and server successfully in 2.3s".toList, 1⟩]
/-- The log lines of claim C8's scenario: a named-layout error line, two
8-space-indented detail lines (the second also a warn line), then a
non-indented line. -/
def scenarioHLogs : List LogEntry :=
  [⟨.stdout, "The page component is named \"layout\" in the routes below".toList, 0⟩,
   ⟨.stdout, "        /app/dashboard".toList, 1⟩,
   ⟨.stdout, "        - warn slow module".toList, 2⟩,
   ⟨.stdout, "ready".toList, 3⟩]
/-- The log lines of scenario C (claim C6): two warn lines and one
duplicate-page error line. -/
def scenarioCLogs : List LogEntry :=
  [⟨.stdout, "- warn hydration mismatch detected".toList, 0⟩,
   ⟨.stdout, "- warn slow filesystem detected".toList, 1⟩,
   ⟨.stderr, "Duplicate page detected pages/index.js and pages/index.tsx".toList, 2⟩]
/-- The two-event log refuting C2 as stated: a zero-duration event followed
by a duration-free event. -/
def c2CexLogs : List LogEntry :=
  [⟨.stdout, "- event compiled in 0s".toList, 0⟩,
   ⟨.stdout, "- event compiled".toList, 1⟩]







/-- C5: `deriveLevel` implements non-overlapping bands evaluated high to
low — `score ≥ 85 → Excellent`, `70 ≤ score < 85 → Good`,
`50 ≤ score < 70 → Average`, `score < 50 → Poor`; in particular
85→Excellent, 84→Good, 70→Good, 69→Average, 50→Average, 49→Poor. -/
theorem c5_level_bands :
    (∀ s : ℚ,
      (deriveLevel s = Level.Excellent ↔ 85 ≤ s) ∧
      (deriveLevel s = Level.Good ↔ 70 ≤ s ∧ s < 85) ∧
      (deriveLevel s = Level.Average ↔ 50 ≤ s ∧ s < 70) ∧
      (deriveLevel s = Level.Poor ↔ s < 50)) ∧
    deriveLevel 85 = Level.Excellent ∧ deriveLevel 84 = Level.Good ∧
    deriveLevel 70 = Level.Good ∧ deriveLevel 69 = Level.Average ∧
    deriveLevel 50 = Level.Average ∧ deriveLevel 49 = Level.Poor := by
  constructor
  · intro s
    refine ⟨?_, ?_, ?_, ?_⟩ <;>
      (unfold deriveLevel; split_ifs <;> simp_all <;> intros <;> linarith)
  · refine ⟨?_, ?_, ?_, ?_, ?_, ?_⟩ <;> norm_num [deriveLevel]

/-- C9: when no registered parser accepts the framework name — for the sole
registered parser, when the lowercased name does not contain `"next"` —
`transformLogs` returns metrics with all four lists empty and an empty
summary, and passes the input logs through untouched. -/
theorem c9_unsupported_fallback (framework : List Char) (logs : List LogEntry)
    (h : isSubstr "next".toList (lc framework) = false) :
    (transformLogs framework logs).metrics.buildEvents = [] ∧
    (transformLogs framework logs).metrics.warnings = [] ∧
    (transformLogs framework logs).metrics.errors = [] ∧
    (transformLogs framework logs).metrics.notes = [] ∧
    (transformLogs framework logs).metrics.summary = none ∧
    (transformLogs framework logs).rawLogs = logs := by
  unfold transformLogs canHandle
  rw [h]
  simp [emptyMetrics]

/-- Witness for C9 at the framework name `"vite"` and a nonempty log. -/
theorem c9_unsupported_fallback_witness :
    isSubstr "next".toList (lc "vite".toList) = false ∧
    ((transformLogs "vite".toList [⟨.stdout, "- warn x".toList, 0⟩]).metrics.buildEvents = [] ∧
     (transformLogs "vite".toList [⟨.stdout, "- warn x".toList, 0⟩]).metrics.warnings = [] ∧
     (transformLogs "vite".toList [⟨.stdout, "- warn x".toList, 0⟩]).metrics.errors = [] ∧
     (transformLogs "vite".toList [⟨.stdout, "- warn x".toList, 0⟩]).metrics.notes = [] ∧
     (transformLogs "vite".toList [⟨.stdout, "- warn x".toList, 0⟩]).metrics.summary = none ∧
     (transformLogs "vite".toList [⟨.stdout, "- warn x".toList, 0⟩]).rawLogs
       = [⟨.stdout, "- warn x".toList, 0⟩]) :=
  ⟨by decide, c9_unsupported_fallback "vite".toList [⟨.stdout, "- warn x".toList, 0⟩] (by decide)⟩

/-- C3: for every metrics value and thresholds (the data model fixes
`slowBuildMs ≥ 0`; the penalty signs are irrelevant to the equality), the
evaluator's score equals the spec formula — the clamp to `[0,100]` of
`100 - errors*errorPenalty - warnings*warningPenalty` minus the capped
slow-build penalty exactly when `longestBuildMs > slowBuildMs`; and
scenario D (`longestBuildMs = 45000`, `slowBuildMs = 30000`, no issues)
scores 90. -/
theorem c3_score_matches_spec :
    (∀ (m : Metrics) (t : Thresholds), 0 ≤ t.slowBuildMs →
      evaluateScore m t = specScore m t) ∧
    evaluateScore metrics45k defaultThresholds = 90 := by
  constructor
  · intro m t hslow
    have hpen : slowBuildPenalty m t = specSlowBuildPenalty m t := by
      unfold slowBuildPenalty specSlowBuildPenalty longestOf
      cases hg : getLongest m with
      | none => simp
      | some x =>
        cases x with
        | nan => simp
        | val q =>
          by_cases hq : q > t.slowBuildMs
          · have hq0 : q ≠ 0 := (lt_of_le_of_lt hslow hq).ne'
            simp [hq, hq0]
          · simp [hq]
    unfold evaluateScore specScore
    rw [hpen]
  · have hpen : slowBuildPenalty metrics45k defaultThresholds = 10 := by
      have hl : longestOf metrics45k = JsNum.val 45000 := rfl
      unfold slowBuildPenalty
      rw [hl]
      norm_num [defaultThresholds]
      rw [show ⌈(3 : ℚ) / 2⌉ = 2 by norm_num [Int.ceil_eq_iff]]
      norm_num
    unfold evaluateScore
    rw [hpen]
    norm_num [baseScore, metrics45k, defaultThresholds]

/-- Witness for C3 at scenario D's inputs. -/
theorem c3_score_matches_spec_witness :
    (0 : ℚ) ≤ defaultThresholds.slowBuildMs ∧
    evaluateScore metrics45k defaultThresholds = specScore metrics45k defaultThresholds :=
  ⟨by norm_num [defaultThresholds],
   c3_score_matches_spec.1 metrics45k defaultThresholds (by norm_num [defaultThresholds])⟩

/-- C4: the computed score always lies in `[0,100]`; and with non-negative
penalties, a metrics value with at least as many errors and at least as many
warnings (all other scoring inputs equal) never scores higher. -/
theorem c4_score_bounds_and_monotone :
    (∀ (m : Metrics) (t : Thresholds),
      0 ≤ evaluateScore m t ∧ evaluateScore m t ≤ 100) ∧
    (∀ (m₁ m₂ : Metrics) (t : Thresholds),
      0 ≤ t.errorPenalty → 0 ≤ t.warningPenalty →
      m₁.errors.length ≤ m₂.errors.length →
      m₁.warnings.length ≤ m₂.warnings.length →
      m₁.summary = m₂.summary →
      evaluateScore m₂ t ≤ evaluateScore m₁ t) := by
  constructor
  · intro m t
    unfold evaluateScore
    exact ⟨le_max_left 0 _, max_le (by norm_num) (min_le_left 100 _)⟩
  · intro m₁ m₂ t hep hwp he hw hs
    unfold evaluateScore
    have hbase : baseScore m₂ t ≤ baseScore m₁ t := by
      unfold baseScore
      have h1 : (m₁.errors.length : ℚ) * t.errorPenalty
          ≤ (m₂.errors.length : ℚ) * t.errorPenalty :=
        mul_le_mul_of_nonneg_right (by exact_mod_cast he) hep
      have h2 : (m₁.warnings.length : ℚ) * t.warningPenalty
          ≤ (m₂.warnings.length : ℚ) * t.warningPenalty :=
        mul_le_mul_of_nonneg_right (by exact_mod_cast hw) hwp
      linarith
    have hpen : slowBuildPenalty m₂ t = slowBuildPenalty m₁ t := by
      unfold slowBuildPenalty longestOf getLongest
      rw [hs]
    exact max_le_max (le_refl 0)
      (min_le_min (le_refl 100) (by rw [hpen]; linarith))


/-- Witness for C4 comparing empty metrics against one added error. -/
theorem c4_score_bounds_and_monotone_witness :
    (0 : ℚ) ≤ defaultThresholds.errorPenalty ∧
    (0 : ℚ) ≤ defaultThresholds.warningPenalty ∧
    emptyMetrics.errors.length ≤ oneErrMetrics.errors.length ∧
    emptyMetrics.warnings.length ≤ oneErrMetrics.warnings.length ∧
    emptyMetrics.summary = oneErrMetrics.summary ∧
    evaluateScore oneErrMetrics defaultThresholds
      ≤ evaluateScore emptyMetrics defaultThresholds :=
  ⟨by norm_num [defaultThresholds], by norm_num [defaultThresholds],
   by decide, by decide, rfl,
   c4_score_bounds_and_monotone.2 emptyMetrics oneErrMetrics defaultThresholds
     (by norm_num [defaultThresholds]) (by norm_num [defaultThresholds])
     (by decide) (by decide) rfl⟩

/-- C10: the score and the level computed by `evaluate` depend only on the
error count, the warning count, `summary.longestBuildMs` and the
thresholds — message texts, details, notes and the build-event list are
never read by the scorer. -/
theorem c10_score_noninterference (m₁ m₂ : Metrics) (t : Thresholds)
    (he : m₁.errors.length = m₂.errors.length)
    (hw : m₁.warnings.length = m₂.warnings.length)
    (hl : getLongest m₁ = getLongest m₂) :
    evaluateScore m₁ t = evaluateScore m₂ t ∧
    deriveLevel (evaluateScore m₁ t) = deriveLevel (evaluateScore m₂ t) := by
  have hsc : evaluateScore m₁ t = evaluateScore m₂ t := by
    unfold evaluateScore baseScore slowBuildPenalty longestOf
    rw [he, hw, hl]
  exact ⟨hsc, by rw [hsc]⟩


/-- Witness for C10 on two metrics differing in events, notes and target. -/
theorem c10_score_noninterference_witness :
    metrics45k.errors.length = metrics45kAlt.errors.length ∧
    metrics45k.warnings.length = metrics45kAlt.warnings.length ∧
    getLongest metrics45k = getLongest metrics45kAlt ∧
    (evaluateScore metrics45k defaultThresholds
       = evaluateScore metrics45kAlt defaultThresholds ∧
     deriveLevel (evaluateScore metrics45k defaultThresholds)
       = deriveLevel (evaluateScore metrics45kAlt defaultThresholds)) :=
  ⟨rfl, rfl, rfl,
   c10_score_noninterference metrics45k metrics45kAlt defaultThresholds rfl rfl rfl⟩


/-- C7: an open pending wait target takes priority — every build event
parsed with a non-empty wait context carries that context as its target and
is `incremental` regardless of the line's text; `normalizeWaitTarget` never
produces an empty context; and scenario A's two lines produce exactly the
single event `{target: "/home", durationMs: 2300, type: incremental}`. -/
theorem c7_wait_context_priority :
    (∀ (tg line : List Char), tg ≠ [] →
      (parseBuildEvent line (some tg)).target = tg ∧
      (parseBuildEvent line (some tg)).type = BuildEventType.incremental) ∧
    (∀ line : List Char, normalizeWaitTarget line ≠ []) ∧
    (transformLogs "next".toList scenarioALogs).metrics.buildEvents
      = [⟨"/home".toList, some (JsNum.val 2300), none, BuildEventType.incremental⟩] := by
  refine ⟨?_, ?_, ?_⟩
  · intro tg line htg
    constructor
    · rfl
    · unfold parseBuildEvent inferBuildType truthyStr
      simp [List.isEmpty_iff, htg]
  · intro line
    unfold normalizeWaitTarget
    dsimp only
    split
    · rename_i g hg
      by_cases he : jsTrim (replaceParen g) = []
      · simp [List.isEmpty_iff, he]
      · simp [List.isEmpty_iff, he]
    · by_cases he : jsTrim (stripTrailingEllipsis (jsTrim (line.drop 6))) = []
      · simp [List.isEmpty_iff, he]
      · simp [List.isEmpty_iff, he]
  · have hev : (transformLogs "next".toList scenarioALogs).metrics.buildEvents
        = [parseBuildEvent
            (jsTrim "- event compiled client and server successfully in 2.3s".toList)
            (some "/home".toList)] := rfl
    have hd : parseDuration
        (jsTrim "- event compiled client and server successfully in 2.3s".toList)
        = some (JsNum.val 2300) := by
      have h : firstNumUnit isDigitDot ['s']
          (jsTrim "- event compiled client and server successfully in 2.3s".toList)
          = some ['2', '.', '3'] := by decide
      have hp : parseFloatParts ['2', '.', '3'] = some (23, 1) := by decide
      simp only [parseDuration, h, parseFloatDD, hp, JsNum.mulNat]
      norm_num
    rw [hev]
    unfold parseBuildEvent
    simp only [hd]
    decide

/-- Witness for C7's hypotheses at scenario A's wait target. -/
theorem c7_wait_context_priority_witness :
    ("/home".toList ≠ ([] : List Char)) ∧
    (parseBuildEvent
        "- event compiled client and server successfully in 2.3s".toList
        (some "/home".toList)).target = "/home".toList ∧
    (parseBuildEvent
        "- event compiled client and server successfully in 2.3s".toList
        (some "/home".toList)).type = BuildEventType.incremental :=
  ⟨by decide,
   (c7_wait_context_priority.1 "/home".toList
     "- event compiled client and server successfully in 2.3s".toList (by decide)).1,
   (c7_wait_context_priority.1 "/home".toList
     "- event compiled client and server successfully in 2.3s".toList (by decide)).2⟩

/-- Once recording (the start entry lies strictly behind), the scan is the
trimmed maximal indented run of the remaining entries. -/
theorem collectScan_rec (entries : List LogEntry) (idx s : ℕ) (h : s < idx) :
    collectScan entries idx s true
      = ((entries.map (fun e => e.message)).takeWhile
          (fun msg => eightSpaces.isPrefixOf msg)).map jsTrim := by
  induction entries generalizing idx with
  | nil => simp [collectScan]
  | cons e rest ih =>
    simp only [collectScan, if_neg (by omega : ¬ idx = s)]
    by_cases hp : eightSpaces.isPrefixOf e.message
    · simp [hp, ih (idx + 1) (by omega)]
    · simp [hp]

/-- Before the start entry is reached, the scan skips; the result is the
trimmed maximal indented run after the start position. -/
theorem collectScan_skip (entries : List LogEntry) (idx s : ℕ) (h : idx ≤ s) :
    collectScan entries idx s false
      = (((entries.drop (s + 1 - idx)).map (fun e => e.message)).takeWhile
          (fun msg => eightSpaces.isPrefixOf msg)).map jsTrim := by
  induction entries generalizing idx with
  | nil => simp [collectScan]
  | cons e rest ih =>
    by_cases he : idx = s
    · subst he
      simp only [collectScan, if_pos rfl]
      rw [collectScan_rec rest (idx + 1) idx (by omega)]
      have h1 : idx + 1 - idx = 1 := by omega
      simp [h1]
    · have hlt : idx < s := lt_of_le_of_ne h he
      simp only [collectScan, if_neg he]
      rw [ih (idx + 1) (by omega)]
      have h1 : s + 1 - idx = (s + 1 - (idx + 1)) + 1 := by omega
      rw [h1, List.drop_succ_cons]
      simp


/-- C8: the detail block of a named-layout error is the ordered trimmed run
of immediately-following 8-space-indented raw lines, stopping at the first
non-indented line; and those indented lines are not excluded from the main
classification pass — an indented line matching the warn rule is classified
again (here producing a warning alongside its appearance in
`details.routes`). -/
theorem c8_indented_block :
    (∀ (logs : List LogEntry) (i : ℕ),
      collectIndentedBlock logs i
        = (((logs.drop (i + 1)).map (fun e => e.message)).takeWhile
            (fun msg => eightSpaces.isPrefixOf msg)).map jsTrim) ∧
    (transformLogs "next".toList scenarioHLogs).metrics.errors
      = [⟨.error, "The page component is named \"layout\" in the routes below".toList,
          some [("routes".toList,
                 DetailVal.strList ["/app/dashboard".toList, "- warn slow module".toList])]⟩] ∧
    (transformLogs "next".toList scenarioHLogs).metrics.warnings
      = [⟨.warning, "- warn slow module".toList, none⟩] := by
  refine ⟨?_, by decide, by decide⟩
  intro logs i
  unfold collectIndentedBlock
  rw [collectScan_skip logs 0 i (by omega)]
  norm_num


/-- C6: the recommendation list is exactly — in this order — one critical
per error (message and details passed through), one warning per warning,
the slow-build warning exactly when the longest build exceeds
`slowBuildMs`, and one info line listing all missing configuration files
exactly when some expected file is absent; scenario C yields one critical
followed by two warnings. -/
theorem c6_recommendation_order :
    (∀ (m : Metrics) (cfgs : List ConfigFile) (t : Thresholds), 0 ≤ t.slowBuildMs →
      buildRecommendations m cfgs t = specRecommendations m cfgs t) ∧
    (transformLogs "next".toList scenarioCLogs).metrics.warnings.length = 2 ∧
    (transformLogs "next".toList scenarioCLogs).metrics.errors.length = 1 ∧
    buildRecommendations (transformLogs "next".toList scenarioCLogs).metrics []
        defaultThresholds
      = [⟨.critical, "Duplicate page detected pages/index.js and pages/index.tsx".toList, none⟩,
         ⟨.warning, "- warn hydration mismatch detected".toList, none⟩,
         ⟨.warning, "- warn slow filesystem detected".toList, none⟩] := by
  refine ⟨?_, by decide, by decide, by decide⟩
  intro m cfgs t hslow
  cases hg : getLongest m with
  | none =>
    simp [buildRecommendations, specRecommendations, longestOf, hg, List.append_assoc]
  | some x =>
    cases x with
    | nan =>
      simp [buildRecommendations, specRecommendations, longestOf, hg, List.append_assoc]
    | val q =>
      by_cases hq : q > t.slowBuildMs
      · have hq0 : q ≠ 0 := (lt_of_le_of_lt hslow hq).ne'
        simp [buildRecommendations, specRecommendations, longestOf, hg, hq, hq0,
          List.append_assoc]
      · simp [buildRecommendations, specRecommendations, longestOf, hg, hq,
          List.append_assoc]

/-- Witness for C6 at scenario C's metrics and the default thresholds. -/
theorem c6_recommendation_order_witness :
    (0 : ℚ) ≤ defaultThresholds.slowBuildMs ∧
    buildRecommendations (transformLogs "next".toList scenarioCLogs).metrics []
        defaultThresholds
      = specRecommendations (transformLogs "next".toList scenarioCLogs).metrics []
        defaultThresholds :=
  ⟨by norm_num [defaultThresholds],
   c6_recommendation_order.1 (transformLogs "next".toList scenarioCLogs).metrics []
     defaultThresholds (by norm_num [defaultThresholds])⟩

/-- Parsing a digit-and-dot match yields NaN or a non-negative value. -/
theorem parseFloatDD_nonneg (s : List Char) :
    parseFloatDD s = JsNum.nan ∨ ∃ q : ℚ, parseFloatDD s = JsNum.val q ∧ 0 ≤ q := by
  unfold parseFloatDD
  cases h : parseFloatParts s with
  | none => exact Or.inl rfl
  | some p =>
    obtain ⟨m, k⟩ := p
    exact Or.inr ⟨(m : ℚ) / (10 : ℚ) ^ k, rfl, by positivity⟩

/-- Every duration the parser extracts is null, NaN, or non-negative. -/
theorem parseDuration_nonneg (line : List Char) :
    parseDuration line = none ∨ parseDuration line = some JsNum.nan ∨
      ∃ q : ℚ, parseDuration line = some (JsNum.val q) ∧ 0 ≤ q := by
  cases h1 : firstNumUnit isDigitDot ['s'] line with
  | some g =>
    rcases parseFloatDD_nonneg g with hn | ⟨q, hv, hq⟩
    · right; left; simp only [parseDuration, h1, hn, JsNum.mulNat]
    · right; right
      refine ⟨q * ((1000 : ℕ) : ℚ), ?_, by positivity⟩
      simp only [parseDuration, h1, hv, JsNum.mulNat]
  | none =>
    cases h2 : firstNumUnit isDigitDot ['m', 's'] line with
    | some g =>
      rcases parseFloatDD_nonneg g with hn | ⟨q, hv, hq⟩
      · right; left; simp only [parseDuration, h1, h2, hn]
      · right; right; exact ⟨q, by simp only [parseDuration, h1, h2, hv], hq⟩
    | none => left; simp only [parseDuration, h1, h2]

/-- Each loop iteration either keeps the accumulated build events or appends
one produced by `parseBuildEvent`. -/
theorem classifyLine_events (logs : List LogEntry) (i : ℕ) (line : List Char)
    (acc : ParseAcc) :
    ∀ e ∈ (classifyLine logs i line acc).buildEvents,
      e ∈ acc.buildEvents ∨ ∃ l ctx, e = parseBuildEvent l ctx := by
  intro e he
  unfold classifyLine at he
  split_ifs at he
  case _ => exact Or.inl he
  case _ => exact Or.inl he
  case _ =>
    replace he : e ∈ acc.buildEvents ++ [parseBuildEvent line acc.lastWaitContext] := he
    rcases List.mem_append.1 he with h | h
    · exact Or.inl h
    · exact Or.inr ⟨line, acc.lastWaitContext, (List.mem_singleton.1 h)⟩
  all_goals exact Or.inl he

/-- Build events accumulated by the parse fold all come from
`parseBuildEvent` (or were present initially). -/
theorem foldl_events (logs : List LogEntry) (idxs : List ℕ) (acc : ParseAcc) :
    ∀ e ∈ (idxs.foldl (fun a i => processEntry logs i a) acc).buildEvents,
      e ∈ acc.buildEvents ∨ ∃ l ctx, e = parseBuildEvent l ctx := by
  induction idxs generalizing acc with
  | nil => intro e he; exact Or.inl he
  | cons i rest ih =>
    intro e he
    rcases ih (processEntry logs i acc) e he with h | h
    · exact classifyLine_events logs i _ acc e h
    · exact Or.inr h

/-- C1 (amended): every emitted `durationMs` is null, NaN, or a finite
non-negative number.  The NaN case is reachable: when the first
seconds/milliseconds match's numeric text is made only of dots,
`parseFloat` yields NaN (see the counterexample). -/
theorem c1_duration_null_nan_or_nonneg (framework : List Char) (logs : List LogEntry) :
    ∀ e ∈ (transformLogs framework logs).metrics.buildEvents,
      e.durationMs = none ∨ e.durationMs = some JsNum.nan ∨
        ∃ q : ℚ, e.durationMs = some (JsNum.val q) ∧ 0 ≤ q := by
  intro e he
  unfold transformLogs at he
  by_cases hc : canHandle framework = true
  · rw [if_pos hc] at he
    replace he : e ∈ ((List.range logs.length).foldl
        (fun a i => processEntry logs i a) initAcc).buildEvents := he
    rcases foldl_events logs _ initAcc e he with h | ⟨l, ctx, rfl⟩
    · exact absurd h (by simp [initAcc])
    · have hd : (parseBuildEvent l ctx).durationMs = parseDuration l := rfl
      rw [hd]
      exact parseDuration_nonneg l
  · rw [if_neg hc] at he
    exact absurd he (by simp [emptyMetrics])

/-- Witness for C1's amended statement at a concrete duration-free event. -/
theorem c1_duration_null_nan_or_nonneg_witness :
    (parseBuildEvent (jsTrim "- event compiled".toList) none
        ∈ (transformLogs "next".toList
            [⟨.stdout, "- event compiled".toList, 0⟩]).metrics.buildEvents) ∧
    ((parseBuildEvent (jsTrim "- event compiled".toList) none).durationMs = none ∨
     (parseBuildEvent (jsTrim "- event compiled".toList) none).durationMs
       = some JsNum.nan ∨
     ∃ q : ℚ, (parseBuildEvent (jsTrim "- event compiled".toList) none).durationMs
       = some (JsNum.val q) ∧ 0 ≤ q) :=
  ⟨by decide,
   c1_duration_null_nan_or_nonneg "next".toList [⟨.stdout, "- event compiled".toList, 0⟩]
     (parseBuildEvent (jsTrim "- event compiled".toList) none) (by decide)⟩

/-- C1 (counterexample): on the line `"- event compiled . s"` the seconds
regex captures `"."`, `parseFloat` returns NaN, and the emitted event's
`durationMs` is NaN — neither null nor a finite non-negative number, so the
claim as stated fails. -/
theorem c1_counterexample :
    ¬ (∀ e ∈ (transformLogs "next".toList
          [⟨.stdout, "- event compiled . s".toList, 0⟩]).metrics.buildEvents,
        e.durationMs = none ∨
          ∃ q : ℚ, e.durationMs = some (JsNum.val q) ∧ 0 ≤ q) := by
  intro h
  have hmem : ∃ e ∈ (transformLogs "next".toList
      [⟨.stdout, "- event compiled . s".toList, 0⟩]).metrics.buildEvents,
      e.durationMs = some JsNum.nan := by decide
  obtain ⟨e, he, hd⟩ := hmem
  rcases h e he with h0 | ⟨q, hq, _⟩
  · rw [hd] at h0
    exact Option.noConfusion h0
  · rw [hd] at hq
    exact JsNum.noConfusion (Option.some.inj hq)

/-- Truthiness of a duration holds exactly on finite nonzero values. -/
theorem truthyNum_true_iff (d : Option JsNum) :
    truthyNum d = true ↔ ∃ q : ℚ, d = some (JsNum.val q) ∧ q ≠ 0 := by
  cases d with
  | none => simp [truthyNum]
  | some x =>
    cases x with
    | nan => simp [truthyNum]
    | val q => simp [truthyNum]

/-- A truthy head contributes its value to `truthyVals`. -/
theorem truthyVals_cons_true (e : BuildEvent) (rest : List BuildEvent) (q : ℚ)
    (hd : e.durationMs = some (JsNum.val q)) (hq : q ≠ 0) :
    truthyVals (e :: rest) = q :: truthyVals rest := by
  simp only [truthyVals, hd]
  rw [if_pos hq]

/-- A falsy head contributes nothing to `truthyVals`. -/
theorem truthyVals_cons_false (e : BuildEvent) (rest : List BuildEvent)
    (h : truthyNum e.durationMs = false) :
    truthyVals (e :: rest) = truthyVals rest := by
  cases hd : e.durationMs with
  | none => simp [truthyVals, hd]
  | some x =>
    cases x with
    | nan => simp [truthyVals, hd]
    | val q =>
      have hq : ¬ q ≠ 0 := by simpa [truthyNum, hd] using h
      simp only [truthyVals, hd]
      rw [if_neg hq]

/-- An empty `truthyVals` decomposes over a cons. -/
theorem truthyVals_nil_of (e : BuildEvent) (rest : List BuildEvent)
    (h : truthyVals (e :: rest) = []) :
    truthyNum e.durationMs = false ∧ truthyVals rest = [] := by
  by_cases ht : truthyNum e.durationMs = true
  · obtain ⟨q, hd, hq⟩ := (truthyNum_true_iff _).1 ht
    rw [truthyVals_cons_true e rest q hd hq] at h
    exact absurd h (by simp)
  · have hf : truthyNum e.durationMs = false := by
      simpa using ht
    rw [truthyVals_cons_false e rest hf] at h
    exact ⟨hf, h⟩

/-- With no truthy duration anywhere, each fold step hands the accumulator
over to the current event, so the fold returns the last event. -/
theorem fold_longest_no_truthy (e0 : BuildEvent) (rest : List BuildEvent)
    (h : truthyVals (e0 :: rest) = []) :
    (e0 :: rest).getLast? = some (rest.foldl longestStep e0) := by
  induction rest generalizing e0 with
  | nil => rfl
  | cons cur rest' ih =>
    obtain ⟨hf, hrest⟩ := truthyVals_nil_of e0 (cur :: rest') h
    have hstep : longestStep e0 cur = cur := by
      unfold longestStep
      rw [hf]
      simp
    rw [List.getLast?_cons_cons, List.foldl_cons, hstep]
    exact ih cur hrest

/-- With at least one truthy duration, the fold returns an event whose
duration is the greatest truthy value. -/
theorem fold_longest_truthy (e0 : BuildEvent) (rest : List BuildEvent)
    (h : truthyVals (e0 :: rest) ≠ []) :
    ∃ q : ℚ, (rest.foldl longestStep e0).durationMs = some (JsNum.val q) ∧
      q ∈ truthyVals (e0 :: rest) ∧ ∀ x ∈ truthyVals (e0 :: rest), x ≤ q := by
  induction rest generalizing e0 with
  | nil =>
    by_cases ht : truthyNum e0.durationMs = true
    · obtain ⟨q, hd, hq⟩ := (truthyNum_true_iff _).1 ht
      rw [truthyVals_cons_true e0 [] q hd hq]
      refine ⟨q, by simpa using hd, by simp [truthyVals], ?_⟩
      intro x hx
      simp [truthyVals] at hx
      simp [hx]
    · have hf : truthyNum e0.durationMs = false := by simpa using ht
      rw [truthyVals_cons_false e0 [] hf] at h
      exact absurd (show truthyVals ([] : List BuildEvent) = [] from rfl) h
  | cons cur rest' ih =>
    by_cases h0 : truthyNum e0.durationMs = true
    · obtain ⟨q0, hd0, hq0⟩ := (truthyNum_true_iff _).1 h0
      by_cases hc : truthyNum cur.durationMs = true
      · obtain ⟨qc, hdc, hqc⟩ := (truthyNum_true_iff _).1 hc
        have hgt : durGt cur.durationMs e0.durationMs = decide (q0 < qc) := by
          rw [hd0, hdc]
          rfl
        by_cases hlt : q0 < qc
        · have hstep : longestStep e0 cur = cur := by
            unfold longestStep
            rw [h0, hc, hgt]
            simp [hlt]
          rw [List.foldl_cons, hstep]
          have hne : truthyVals (cur :: rest') ≠ [] := by
            rw [truthyVals_cons_true cur rest' qc hdc hqc]
            simp
          obtain ⟨q, hdur, hmem, hbound⟩ := ih cur hne
          rw [truthyVals_cons_true cur rest' qc hdc hqc] at hmem hbound
          rw [truthyVals_cons_true e0 (cur :: rest') q0 hd0 hq0,
              truthyVals_cons_true cur rest' qc hdc hqc]
          refine ⟨q, hdur, List.mem_cons_of_mem q0 hmem, ?_⟩
          intro x hx
          rcases List.mem_cons.1 hx with rfl | hx'
          · exact le_of_lt (lt_of_lt_of_le hlt (hbound qc (List.mem_cons_self qc _)))
          · exact hbound x hx'
        · have hstep : longestStep e0 cur = e0 := by
            unfold longestStep
            rw [h0, hc, hgt]
            simp [hlt]
          rw [List.foldl_cons, hstep]
          have hne : truthyVals (e0 :: rest') ≠ [] := by
            rw [truthyVals_cons_true e0 rest' q0 hd0 hq0]
            simp
          obtain ⟨q, hdur, hmem, hbound⟩ := ih e0 hne
          rw [truthyVals_cons_true e0 rest' q0 hd0 hq0] at hmem hbound
          rw [truthyVals_cons_true e0 (cur :: rest') q0 hd0 hq0,
              truthyVals_cons_true cur rest' qc hdc hqc]
          refine ⟨q, hdur, ?_, ?_⟩
          · rcases List.mem_cons.1 hmem with rfl | hx'
            · exact List.mem_cons_self _ _
            · exact List.mem_cons_of_mem _ (List.mem_cons_of_mem _ hx')
          · intro x hx
            rcases List.mem_cons.1 hx with rfl | hx'
            · exact hbound x (List.mem_cons_self _ _)
            · rcases List.mem_cons.1 hx' with rfl | hx''
              · exact le_trans (not_lt.1 hlt) (hbound q0 (List.mem_cons_self _ _))
              · exact hbound x (List.mem_cons_of_mem _ hx'')
      · have hcf : truthyNum cur.durationMs = false := by simpa using hc
        have hstep : longestStep e0 cur = e0 := by
          unfold longestStep
          rw [h0, hcf]
          simp
        rw [List.foldl_cons, hstep]
        have hlist : truthyVals (e0 :: cur :: rest') = truthyVals (e0 :: rest') := by
          rw [truthyVals_cons_true e0 (cur :: rest') q0 hd0 hq0,
              truthyVals_cons_false cur rest' hcf,
              truthyVals_cons_true e0 rest' q0 hd0 hq0]
        rw [hlist]
        apply ih e0
        rw [truthyVals_cons_true e0 rest' q0 hd0 hq0]
        simp
    · have h0f : truthyNum e0.durationMs = false := by simpa using h0
      have hstep : longestStep e0 cur = cur := by
        unfold longestStep
        rw [h0f]
        simp
      rw [List.foldl_cons, hstep]
      have hlist : truthyVals (e0 :: cur :: rest') = truthyVals (cur :: rest') :=
        truthyVals_cons_false e0 (cur :: rest') h0f
      rw [hlist]
      apply ih cur
      rw [← hlist]
      exact h

/-- What `summarize` actually computes: empty record exactly on no events;
otherwise the greatest truthy duration wins, and with no truthy duration the
last event's (possibly null) duration is reported. -/
theorem summarize_characterization (events : List BuildEvent) :
    (summarize events = none ↔ events = []) ∧
    (∀ s, summarize events = some s →
      s.eventCount = events.length ∧
      ((∃ q : ℚ, s.longestBuildMs = some (JsNum.val q) ∧ q ∈ truthyVals events ∧
          ∀ x ∈ truthyVals events, x ≤ q) ∨
       (truthyVals events = [] ∧ ∃ elast, events.getLast? = some elast ∧
          s.longestBuildMs = elast.durationMs))) := by
  cases events with
  | nil =>
    constructor
    · simp [summarize]
    · intro s hs
      exact absurd hs (by simp [summarize])
  | cons e0 rest =>
    constructor
    · simp [summarize]
    · intro s hs
      rw [show summarize (e0 :: rest) = some ⟨(e0 :: rest).length,
            (rest.foldl longestStep e0).durationMs,
            (rest.foldl longestStep e0).target⟩ from rfl] at hs
      obtain rfl := Option.some.inj hs
      refine ⟨rfl, ?_⟩
      by_cases htv : truthyVals (e0 :: rest) = []
      · exact Or.inr ⟨htv, rest.foldl longestStep e0,
          fold_longest_no_truthy e0 rest htv, rfl⟩
      · exact Or.inl (fold_longest_truthy e0 rest htv)

/-- C2 (amended): for every parsed line sequence, the summary is the empty
mapping exactly when `buildEvents` is empty; otherwise `eventCount` is the
event count and `longestBuildMs` is present and equals the greatest
*truthy* duration — `null`, `0` and `NaN` never win a comparison — and,
when no event has a truthy duration, the last event's `durationMs` (which
is then `null`, `0` or `NaN`, reported as-is rather than the key being
absent). -/
theorem c2_summary_longest (fw : List Char) (logs : List LogEntry) :
    ((transformLogs fw logs).metrics.summary = none
       ↔ (transformLogs fw logs).metrics.buildEvents = []) ∧
    (∀ s, (transformLogs fw logs).metrics.summary = some s →
      s.eventCount = (transformLogs fw logs).metrics.buildEvents.length ∧
      ((∃ q : ℚ, s.longestBuildMs = some (JsNum.val q) ∧
          q ∈ truthyVals (transformLogs fw logs).metrics.buildEvents ∧
          ∀ x ∈ truthyVals (transformLogs fw logs).metrics.buildEvents, x ≤ q) ∨
       (truthyVals (transformLogs fw logs).metrics.buildEvents = [] ∧
        ∃ elast, (transformLogs fw logs).metrics.buildEvents.getLast? = some elast ∧
          s.longestBuildMs = elast.durationMs))) := by
  have hsum : (transformLogs fw logs).metrics.summary
      = summarize (transformLogs fw logs).metrics.buildEvents := by
    unfold transformLogs
    by_cases hc : canHandle fw = true
    · rw [if_pos hc]
      rfl
    · rw [if_neg hc]
      rfl
  rw [hsum]
  exact summarize_characterization _

/-- Witness for C2's amended statement on a single duration-free event. -/
theorem c2_summary_longest_witness :
    ((transformLogs "next".toList
        [⟨.stdout, "- event compiled".toList, 0⟩]).metrics.summary
      = some ⟨1, none, "build".toList⟩) ∧
    ((⟨1, none, "build".toList⟩ : Summary).eventCount
        = (transformLogs "next".toList
            [⟨.stdout, "- event compiled".toList, 0⟩]).metrics.buildEvents.length ∧
      ((∃ q : ℚ, (⟨1, none, "build".toList⟩ : Summary).longestBuildMs
            = some (JsNum.val q) ∧
          q ∈ truthyVals (transformLogs "next".toList
              [⟨.stdout, "- event compiled".toList, 0⟩]).metrics.buildEvents ∧
          ∀ x ∈ truthyVals (transformLogs "next".toList
              [⟨.stdout, "- event compiled".toList, 0⟩]).metrics.buildEvents, x ≤ q) ∨
       (truthyVals (transformLogs "next".toList
            [⟨.stdout, "- event compiled".toList, 0⟩]).metrics.buildEvents = [] ∧
        ∃ elast, (transformLogs "next".toList
            [⟨.stdout, "- event compiled".toList, 0⟩]).metrics.buildEvents.getLast?
              = some elast ∧
          (⟨1, none, "build".toList⟩ : Summary).longestBuildMs = elast.durationMs))) :=
  ⟨by decide,
   (c2_summary_longest "next".toList [⟨.stdout, "- event compiled".toList, 0⟩]).2
     ⟨1, none, "build".toList⟩ (by decide)⟩


/-- C2 (counterexample): on `c2CexLogs` the parsed durations are `[0, null]`,
so the maximum `durationMs` among events with non-null duration is `0`; yet
the emitted `summary.longestBuildMs` is `null`, because the JS-truthiness
fold treats the zero duration as absent and hands the accumulator to the
last event.  The claim as stated (maximum among non-null durations) fails. -/
theorem c2_counterexample :
    ((transformLogs "next".toList c2CexLogs).metrics.buildEvents.map
        (fun e => e.durationMs) = [some (JsNum.val 0), none]) ∧
    ¬ (∀ s, (transformLogs "next".toList c2CexLogs).metrics.summary = some s →
        s.longestBuildMs = some (JsNum.val 0)) := by
  have h1 : parseDuration (jsTrim "- event compiled in 0s".toList)
      = some (JsNum.val 0) := by
    have h : firstNumUnit isDigitDot ['s'] (jsTrim "- event compiled in 0s".toList)
        = some ['0'] := by decide
    have hp : parseFloatParts ['0'] = some (0, 0) := by decide
    simp only [parseDuration, h, parseFloatDD, hp, JsNum.mulNat]
    norm_num
  have h2 : parseDuration (jsTrim "- event compiled".toList) = none := by decide
  have hev : (transformLogs "next".toList c2CexLogs).metrics.buildEvents
      = [parseBuildEvent (jsTrim "- event compiled in 0s".toList) none,
         parseBuildEvent (jsTrim "- event compiled".toList) none] := rfl
  have hevlit : (transformLogs "next".toList c2CexLogs).metrics.buildEvents
      = [⟨"build".toList, some (JsNum.val 0), none, .incremental⟩,
         ⟨"build".toList, none, none, .incremental⟩] := by
    rw [hev]
    unfold parseBuildEvent
    simp only [h1, h2]
    decide
  constructor
  · rw [hevlit]
    decide
  · intro hall
    have hsum2 : (transformLogs "next".toList c2CexLogs).metrics.summary
        = some ⟨2, none, "build".toList⟩ := by
      rw [show (transformLogs "next".toList c2CexLogs).metrics.summary
          = summarize (transformLogs "next".toList c2CexLogs).metrics.buildEvents
          from rfl, hevlit]
      decide
    have hx := hall ⟨2, none, "build".toList⟩ hsum2
    exact Option.noConfusion hx
